import Mathlib

/-!
Shallow embedding of the The3gs/Compiler repository: the stack virtual
machine (`src/virtual_machine.rs`) and the bytecode compiler
(`src/compiler.rs`), with theorems checking the specification's claims
about them.

Machine words are `u32`; we model them as `Nat` with explicit wrapping
`% 2 ^ 32` exactly where the Rust code uses `wrapping_*` operations.
The operand stack is a `List Nat` whose head is the top of the stack
(Rust pushes/pops at the end of its `Vec`); the heap is a `List Nat`
addressed from the front, matching the `Vec` indexed by absolute
address.  Operations that panic in Rust (`unwrap` on an empty stack,
out-of-range indexing, division by a zero divisor with the `/`
operator) are modelled by returning `none`.
-/

namespace Comp

/-- The wrap-around modulus of the 32-bit machine words. -/
def WORD : Nat := 2 ^ 32

/-- `u32::MAX`, the sentinel "no caller" function identity. -/
def sentinel : Nat := WORD - 1

/-- `u32::wrapping_add`. -/
def wadd (a b : Nat) : Nat := (a + b) % WORD

/-- `u32::wrapping_sub`. -/
def wsub (a b : Nat) : Nat := (a + (WORD - b % WORD)) % WORD

/-- `u32::wrapping_mul`. -/
def wmul (a b : Nat) : Nat := (a * b) % WORD

/-- The instruction set of the virtual machine (`enum Operation`). -/
inductive Operation where
  | Push (n : Nat)
  | Pop
  | Get (depth : Nat)
  | Put (depth : Nat)
  | Store (address : Nat)
  | Load (address : Nat)
  | Allocate (size : Nat)
  | Free (address : Nat)
  | Call (function_id : Nat)
  | CallFnPointer
  | Return
  | AddImmediate (i : Nat)
  | Add
  | SubImmediate (i : Nat)
  | SubImmediateBy (i : Nat)
  | Sub
  | MulImmediate (i : Nat)
  | Mul
  | DivImmediate (i : Nat)
  | DivImmediateBy (i : Nat)
  | Div
  | ModImmediate (i : Nat)
  | ModImmediateBy (i : Nat)
  | Mod
  | Jump (location : Nat)
  | JumpIf (location : Nat)
  | JumpIfNot (location : Nat)
  | Goto
  | GotoIf
  | GotoIfNot
deriving Repr, DecidableEq

/-- The mutable machine state (`struct VirtualMachine`, minus the
immutable function table, which is passed separately).  `stack` is
top-first: its head is the most recently pushed word. -/
structure VirtualMachine where
  function_id : Nat
  program_counter : Nat
  stack : List Nat
  heap : List Nat
deriving Repr, DecidableEq

/-- The effect of one operation on the machine state: the body of the
`match` in `VirtualMachine::run`, before the loop's uniform program
counter increment.  `none` models a Rust panic (stack underflow via
`unwrap`, out-of-range indexing, or division by zero with `/`). -/
def execOp (op : Operation) (vm : VirtualMachine) : Option VirtualMachine :=
  match op with
  | .Push n => some { vm with stack := n :: vm.stack }
  | .Pop => some { vm with stack := vm.stack.tail }
  | .Get depth =>
      match vm.stack[depth]? with
      | some n => some { vm with stack := n :: vm.stack }
      | none => none
  | .Put depth =>
      match vm.stack with
      | [] => none
      | v :: rest =>
          if depth < rest.length then some { vm with stack := rest.set depth v }
          else none
  | .Store address =>
      match vm.stack with
      | [] => none
      | v :: rest =>
          if address < vm.heap.length then
            some { vm with stack := rest, heap := vm.heap.set address v }
          else none
  | .Load address =>
      match vm.heap[address]? with
      | some n => some { vm with stack := n :: vm.stack }
      | none => none
  | .Allocate size =>
      some { vm with stack := vm.heap.length :: vm.stack,
                     heap := vm.heap ++ List.replicate size 0 }
  | .Free _ =>
      match vm.stack with
      | [] => none
      | _ :: rest => some { vm with stack := rest }
  | .Call function_id =>
      some { vm with stack := vm.function_id :: vm.program_counter :: vm.stack,
                     function_id := function_id,
                     program_counter := sentinel }
  | .CallFnPointer =>
      match vm.stack with
      | [] => none
      | function_id :: rest =>
          some { vm with stack := vm.function_id :: vm.program_counter :: rest,
                         function_id := function_id,
                         program_counter := sentinel }
  | .Return =>
      match vm.stack with
      | f :: p :: rest =>
          some { vm with function_id := f, program_counter := p, stack := rest }
      | _ => none
  | .AddImmediate i =>
      match vm.stack with
      | [] => none
      | b :: rest => some { vm with stack := wadd b i :: rest }
  | .Add =>
      match vm.stack with
      | b :: a :: rest => some { vm with stack := wadd a b :: rest }
      | _ => none
  | .SubImmediate i =>
      match vm.stack with
      | [] => none
      | b :: rest => some { vm with stack := wsub b i :: rest }
  | .SubImmediateBy i =>
      match vm.stack with
      | [] => none
      | b :: rest => some { vm with stack := wsub b i :: rest }
  | .Sub =>
      match vm.stack with
      | b :: a :: rest => some { vm with stack := wsub a b :: rest }
      | _ => none
  | .MulImmediate i =>
      match vm.stack with
      | [] => none
      | b :: rest => some { vm with stack := wmul b i :: rest }
  | .Mul =>
      match vm.stack with
      | b :: a :: rest => some { vm with stack := wmul a b :: rest }
      | _ => none
  | .DivImmediate i =>
      match vm.stack with
      | [] => none
      | b :: rest =>
          some { vm with stack := (if i ≠ 0 then b / i else 0) :: rest }
  | .DivImmediateBy i =>
      match vm.stack with
      | [] => none
      | b :: rest =>
          if b ≠ 0 then
            if i = 0 then none
            else some { vm with stack := b / i :: rest }
          else some { vm with stack := 0 :: rest }
  | .Div =>
      match vm.stack with
      | b :: a :: rest =>
          some { vm with stack := (if b ≠ 0 then a / b else 0) :: rest }
      | _ => none
  | .ModImmediate i =>
      match vm.stack with
      | [] => none
      | b :: rest =>
          some { vm with stack := (if i ≠ 0 then b % i else 0) :: rest }
  | .ModImmediateBy i =>
      match vm.stack with
      | [] => none
      | b :: rest =>
          some { vm with stack := (if b ≠ 0 then i % b else 0) :: rest }
  | .Mod =>
      match vm.stack with
      | b :: a :: rest =>
          some { vm with stack := (if b ≠ 0 then a % b else 0) :: rest }
      | _ => none
  | .Jump location =>
      some { vm with program_counter := wsub location 1 }
  | .JumpIf location =>
      match vm.stack with
      | [] => none
      | v :: rest =>
          some { vm with stack := rest,
                         program_counter :=
                           if v ≠ 0 then wsub location 1 else vm.program_counter }
  | .JumpIfNot location =>
      match vm.stack with
      | [] => none
      | v :: rest =>
          some { vm with stack := rest,
                         program_counter :=
                           if v = 0 then wsub location 1 else vm.program_counter }
  | .Goto =>
      match vm.stack with
      | [] => none
      | location :: rest =>
          some { vm with stack := rest, program_counter := wsub location 1 }
  | .GotoIf =>
      match vm.stack with
      | location :: v :: rest =>
          some { vm with stack := rest,
                         program_counter :=
                           if v ≠ 0 then wsub location 1 else vm.program_counter }
      | _ => none
  | .GotoIfNot =>
      match vm.stack with
      | location :: v :: rest =>
          some { vm with stack := rest,
                         program_counter :=
                           if v = 0 then wsub location 1 else vm.program_counter }
      | _ => none

/-- One operation followed by the fetch loop's uniform
`program_counter.wrapping_add(1)`. -/
def stepOp (op : Operation) (vm : VirtualMachine) : Option VirtualMachine :=
  (execOp op vm).map fun v => { v with program_counter := wadd v.program_counter 1 }

/-- One iteration of `VirtualMachine::run` over a table of compiled
functions (builtin host routines are outside the embedded core).  A
machine whose function identity is the sentinel has terminated and is
left unchanged; fetching outside the table or past the end of an
operation sequence is a panic (`none`). -/
def stepM (functions : List (List Operation)) (vm : VirtualMachine) :
    Option VirtualMachine :=
  if vm.function_id = sentinel then some vm
  else
    match functions[vm.function_id]? with
    | none => none
    | some ops =>
        match ops[vm.program_counter]? with
        | none => none
        | some op => stepOp op vm

/-- `n` iterations of the fetch-decode-execute loop. -/
def stepsN (functions : List (List Operation)) : Nat → VirtualMachine → Option VirtualMachine
  | 0, vm => some vm
  | n + 1, vm => (stepM functions vm).bind (stepsN functions n)

/-! ## The abstract syntax tree (`src/ast.rs`) -/

/-- `enum Type`. -/
inductive Ty where
  | Fun (params : List Ty) (ret : Ty)
  | U32

/-- `enum Expression`. -/
inductive Expression where
  | Call (fn_name : String) (args : List Expression)
  | Variable (name : String)
  | Add (e1 e2 : Expression)
  | Sub (e1 e2 : Expression)
  | Mul (e1 e2 : Expression)
  | Div (e1 e2 : Expression)
  | Mod (e1 e2 : Expression)
  | NumLiteral (n : Nat)

/-- `enum Statement`. -/
inductive Statement where
  | Let (name : String) (var_type : Option Ty) (e : Expression)
  | Expr (e : Expression)
  | Return (e : Expression)

/-- `enum Declaration` (its only variant, `Function`). -/
structure Declaration where
  name : String
  arguments : List (String × Ty)
  return_type : Ty
  body : List Statement

/-! ## The compiler (`src/compiler.rs`)

`compile_expression` and `compile_statement` mutate two vectors: the
emitted `operations` and the bookkeeping `local_vars` list of optional
binding names.  We pass both explicitly and return the updated pair.
`none` models a Rust panic (`unwrap` of a failed name lookup or of a
missing `Let` type annotation). -/

/-- `size_of` in `compiler.rs`. -/
def size_of : Ty → Nat
  | .Fun _ _ => 1
  | .U32 => 1

mutual

/-- `compile_expression`. -/
def compileExpression (arguments : List (String × Ty)) (function_names : List String) :
    Expression → List Operation → List (Option String) →
    Option (List Operation × List (Option String))
  | .Call fn_name es, operations, local_vars => do
      let (operations, local_vars) ←
        compileExpressionList arguments function_names es operations local_vars
      let idx ← function_names.findIdx? (fun s => s == fn_name)
      some (operations ++ [Operation.Call idx], local_vars)
  | .NumLiteral n, operations, local_vars =>
      some (operations ++ [Operation.Push n], local_vars ++ [none])
  | .Variable name, operations, local_vars => do
      let index ←
        (local_vars.reverse.findIdx? (fun v => v == some name)).orElse fun _ =>
          (arguments.reverse.findIdx? (fun a => a.1 == name)).map
            (fun i => i + local_vars.length + 2)
      some (operations ++ [Operation.Get index], local_vars ++ [none])
  | .Add e1 e2, operations, local_vars => do
      let (operations, local_vars) ←
        compileExpression arguments function_names e1 operations local_vars
      let (operations, local_vars) ←
        compileExpression arguments function_names e2 operations local_vars
      some (operations ++ [Operation.Add], local_vars.dropLast)
  | .Sub e1 e2, operations, local_vars => do
      let (operations, local_vars) ←
        compileExpression arguments function_names e1 operations local_vars
      let (operations, local_vars) ←
        compileExpression arguments function_names e2 operations local_vars
      some (operations ++ [Operation.Sub], local_vars.dropLast)
  | .Mul e1 e2, operations, local_vars => do
      let (operations, local_vars) ←
        compileExpression arguments function_names e1 operations local_vars
      let (operations, local_vars) ←
        compileExpression arguments function_names e2 operations local_vars
      some (operations ++ [Operation.Mul], local_vars.dropLast)
  | .Div e1 e2, operations, local_vars => do
      let (operations, local_vars) ←
        compileExpression arguments function_names e1 operations local_vars
      let (operations, local_vars) ←
        compileExpression arguments function_names e2 operations local_vars
      some (operations ++ [Operation.Div], local_vars.dropLast)
  | .Mod e1 e2, operations, local_vars => do
      let (operations, local_vars) ←
        compileExpression arguments function_names e1 operations local_vars
      let (operations, local_vars) ←
        compileExpression arguments function_names e2 operations local_vars
      some (operations ++ [Operation.Mod], local_vars.dropLast)

/-- The `for expression in expressions` loop inside the `Call` branch of
`compile_expression`. -/
def compileExpressionList (arguments : List (String × Ty)) (function_names : List String) :
    List Expression → List Operation → List (Option String) →
    Option (List Operation × List (Option String))
  | [], operations, local_vars => some (operations, local_vars)
  | e :: es, operations, local_vars => do
      let (operations, local_vars) ←
        compileExpression arguments function_names e operations local_vars
      compileExpressionList arguments function_names es operations local_vars

end

/-- `compile_statement`. -/
def compileStatement (arguments : List (String × Ty)) (function_names : List String) :
    Statement → List Operation → List (Option String) →
    Option (List Operation × List (Option String))
  | .Let name var_type e, operations, local_vars => do
      let vt ← var_type
      let var_size := size_of vt
      let local_vars :=
        if var_size > 0 then
          (local_vars ++ [some name]) ++ List.replicate (var_size - 1) none
        else local_vars
      let (operations, local_vars) ←
        compileExpression arguments function_names e operations local_vars
      some (operations, local_vars.dropLast)
  | .Expr e, operations, local_vars => do
      let (operations, local_vars) ←
        compileExpression arguments function_names e operations local_vars
      some (operations ++ [Operation.Pop], local_vars.dropLast)
  | .Return e, operations, local_vars => do
      let (operations, local_vars) ←
        compileExpression arguments function_names e operations local_vars
      let local_vars := local_vars.dropLast
      some ((operations ++ [Operation.Put (local_vars.length + 2)])
              ++ List.replicate local_vars.length Operation.Pop
              ++ [Operation.Return],
            local_vars)

/-- The `for statement in body` loop in `compile`: fold
`compile_statement` over a function's body, starting from empty
`operations` and `local_vars`. -/
def compileStatements (arguments : List (String × Ty)) (function_names : List String) :
    List Statement → List Operation → List (Option String) →
    Option (List Operation × List (Option String))
  | [], operations, local_vars => some (operations, local_vars)
  | s :: ss, operations, local_vars => do
      let (operations, local_vars) ←
        compileStatement arguments function_names s operations local_vars
      compileStatements arguments function_names ss operations local_vars

/-- The per-declaration body of `compile`: the operation sequence emitted
for one function declaration. -/
def compileFunction (function_names : List String) (d : Declaration) :
    Option (List Operation) :=
  (compileStatements d.arguments function_names d.body [] []).map (fun r => r.1)

/-- `compile`: one operation sequence per declaration, with function
names resolved against the whole declaration list. -/
def compile (decls : List Declaration) : Option (List (List Operation)) :=
  decls.mapM (compileFunction (decls.map (fun d => d.name)))

/-- `VirtualMachine::from_functions`: the initial machine state.  The
initial function is the one named "main" (index 0 if absent) and the
stack is seeded `vec![0, 0, u32::MAX]`, so top-first it reads
`[sentinel, 0, 0]`. -/
def fromFunctions (names : List String) : VirtualMachine :=
  { function_id := (names.findIdx? (fun s => s == "main")).getD 0,
    program_counter := 0,
    stack := [sentinel, 0, 0],
    heap := [] }

/-! ## Example programs used by the theorems -/

/-- The spec's scenario function `fn add(a: u32, b: u32): u32 { return a + b; }`. -/
def addDecl : Declaration :=
  { name := "add",
    arguments := [("a", Ty.U32), ("b", Ty.U32)],
    return_type := Ty.U32,
    body := [Statement.Return (Expression.Add (Expression.Variable "a")
              (Expression.Variable "b"))] }

/-- A main function whose body is `return add(3, 4);`. -/
def mainDecl : Declaration :=
  { name := "main",
    arguments := [],
    return_type := Ty.U32,
    body := [Statement.Return (Expression.Call "add"
              [Expression.NumLiteral 3, Expression.NumLiteral 4])] }

/-- `fn f(a: u32): u32 { let x: u32 = a; return x; }`: the let-binding's
initializer references a parameter. -/
def letDecl : Declaration :=
  { name := "f",
    arguments := [("a", Ty.U32)],
    return_type := Ty.U32,
    body := [Statement.Let "x" (some Ty.U32) (Expression.Variable "a"),
             Statement.Return (Expression.Variable "x")] }

/-- Call-free expressions: no `Call` node anywhere.  The compiled code of
a call-free expression is straight-line (pushes, reads, arithmetic). -/
def callFreeE : Expression → Bool
  | .Call _ _ => false
  | .Variable _ => true
  | .NumLiteral _ => true
  | .Add e1 e2 => callFreeE e1 && callFreeE e2
  | .Sub e1 e2 => callFreeE e1 && callFreeE e2
  | .Mul e1 e2 => callFreeE e1 && callFreeE e2
  | .Div e1 e2 => callFreeE e1 && callFreeE e2
  | .Mod e1 e2 => callFreeE e1 && callFreeE e2

/-- Call-free statements. -/
def callFreeS : Statement → Bool
  | .Let _ _ e => callFreeE e
  | .Expr e => callFreeE e
  | .Return e => callFreeE e

/-- Whether a statement is a return statement. -/
def isReturnS : Statement → Bool
  | .Return _ => true
  | _ => false

/-- Whether a statement declares a local. -/
def isLetS : Statement → Bool
  | .Let _ _ _ => true
  | _ => false

/-- The five two-operand stack arithmetic operations. -/
def isBinArith : Operation → Bool
  | .Add => true
  | .Sub => true
  | .Mul => true
  | .Div => true
  | .Mod => true
  | _ => false

/-- `fn f(): u32 { return f(); }`: a function with 0 parameters and 0
declared locals whose body ends in a return statement, but whose
compiled code calls itself forever and never resumes its caller. -/
def recDecl : Declaration :=
  { name := "f",
    arguments := [],
    return_type := Ty.U32,
    body := [Statement.Return (Expression.Call "f" [])] }

/-! ## Shared helper lemmas -/

/-- The jump compensation: setting the program counter to `target - 1`
(wrapping) and then applying the loop's `+ 1` lands exactly on `target`. -/
theorem wadd_wsub_one {loc : Nat} (h : loc < WORD) : wadd (wsub loc 1) 1 = loc := by
  have hW : WORD = 4294967296 := by norm_num [WORD]
  simp only [wadd, wsub, hW] at *
  omega

/-- The uniform increment does not wrap below `WORD`. -/
theorem wadd_one_of_lt {i : Nat} (h : i + 1 < WORD) : wadd i 1 = i + 1 :=
  Nat.mod_eq_of_lt h

/-! ## Claim theorems -/

/-- C3: `Call(fid)` pushes the current program counter, then the current
function identity (identity on top), sets the function identity to `fid`
and the program counter to the sentinel, so that after the loop's uniform
increment the next instruction executed is instruction 0 of the callee;
`Return` pops the function identity then the program counter, restoring
the caller's cursor exactly as it was at the call site (the value popped
into the program counter is bit-for-bit the value `Call` pushed). -/
theorem call_return_calling_convention :
    (∀ (vm : VirtualMachine) (fid : Nat),
       stepOp (Operation.Call fid) vm
         = some ⟨fid, 0, vm.function_id :: vm.program_counter :: vm.stack, vm.heap⟩)
    ∧ (∀ (i q f p : Nat) (rest heap : List Nat),
       execOp Operation.Return ⟨i, q, f :: p :: rest, heap⟩ = some ⟨f, p, rest, heap⟩) := by
  constructor
  · intro vm fid
    simp [stepOp, execOp, wadd, sentinel, WORD]
  · intro i q f p rest heap
    rfl

/-- C4: every taken jump (`Jump`, `JumpIf`, `JumpIfNot`, `Goto`, `GotoIf`,
`GotoIfNot`) sets the program counter to `target - 1`, so after the loop's
uniform increment the instruction at exactly the target position executes
next; `JumpIfNot` consumes the top word and jumps when it equals 0. -/
theorem jump_class_off_by_one (i q loc v : Nat) (rest heap : List Nat)
    (hloc : loc < WORD) :
    stepOp (Operation.Jump loc) ⟨i, q, rest, heap⟩ = some ⟨i, loc, rest, heap⟩
    ∧ (v ≠ 0 →
        stepOp (Operation.JumpIf loc) ⟨i, q, v :: rest, heap⟩ = some ⟨i, loc, rest, heap⟩)
    ∧ (v = 0 →
        stepOp (Operation.JumpIfNot loc) ⟨i, q, v :: rest, heap⟩ = some ⟨i, loc, rest, heap⟩)
    ∧ stepOp Operation.Goto ⟨i, q, loc :: rest, heap⟩ = some ⟨i, loc, rest, heap⟩
    ∧ (v ≠ 0 →
        stepOp Operation.GotoIf ⟨i, q, loc :: v :: rest, heap⟩ = some ⟨i, loc, rest, heap⟩)
    ∧ (v = 0 →
        stepOp Operation.GotoIfNot ⟨i, q, loc :: v :: rest, heap⟩
          = some ⟨i, loc, rest, heap⟩) := by
  refine ⟨?_, fun hv => ?_, fun hv => ?_, ?_, fun hv => ?_, fun hv => ?_⟩ <;>
    simp_all [stepOp, execOp, wadd_wsub_one hloc]

/-- C4 witness at `loc = 5`, `v = 0`. -/
theorem jump_class_off_by_one_witness :
    (5 : Nat) < WORD ∧
    (stepOp (Operation.Jump 5) ⟨0, 0, [], []⟩ = some ⟨0, 5, [], []⟩
     ∧ ((0 : Nat) ≠ 0 →
         stepOp (Operation.JumpIf 5) ⟨0, 0, [0], []⟩ = some ⟨0, 5, [], []⟩)
     ∧ ((0 : Nat) = 0 →
         stepOp (Operation.JumpIfNot 5) ⟨0, 0, [0], []⟩ = some ⟨0, 5, [], []⟩)
     ∧ stepOp Operation.Goto ⟨0, 0, [5], []⟩ = some ⟨0, 5, [], []⟩
     ∧ ((0 : Nat) ≠ 0 →
         stepOp Operation.GotoIf ⟨0, 0, [5, 0], []⟩ = some ⟨0, 5, [], []⟩)
     ∧ ((0 : Nat) = 0 →
         stepOp Operation.GotoIfNot ⟨0, 0, [5, 0], []⟩ = some ⟨0, 5, [], []⟩)) :=
  ⟨by decide, jump_class_off_by_one 0 0 5 0 [] [] (by decide)⟩

/-- C5: the claim says no arithmetic operation ever faults and every zero
divisor yields 0; in the code `DivImmediateBy(i)` guards on the popped
value `b` instead of the divisor and computes `b / i` with Rust's
panicking division, so `DivImmediateBy(0)` on a nonzero top word divides
by zero and panics.  The guard structure (and the sibling
`ModImmediateBy`, which guards the actual divisor) shows the spec is the
intent and the arm a slip, hence a code bug.  The other conjuncts record
that every remaining arm matches the claim: guarded `Div`/`Mod` push 0 on
a zero divisor and `Add` wraps modulo `2 ^ 32`. -/
theorem div_immediate_by_zero_faults :
    execOp (Operation.DivImmediateBy 0) ⟨0, 0, [1], []⟩ = none
    ∧ execOp Operation.Div ⟨0, 0, [0, 5], []⟩ = some ⟨0, 0, [0], []⟩
    ∧ execOp Operation.Mod ⟨0, 0, [0, 5], []⟩ = some ⟨0, 0, [0], []⟩
    ∧ execOp (Operation.DivImmediate 0) ⟨0, 0, [5], []⟩ = some ⟨0, 0, [0], []⟩
    ∧ execOp (Operation.ModImmediate 0) ⟨0, 0, [5], []⟩ = some ⟨0, 0, [0], []⟩
    ∧ execOp (Operation.ModImmediateBy 0) ⟨0, 0, [0], []⟩ = some ⟨0, 0, [0], []⟩
    ∧ execOp Operation.Add ⟨0, 0, [1, WORD - 1], []⟩ = some ⟨0, 0, [0], []⟩
    ∧ execOp Operation.Mul ⟨0, 0, [2, 2 ^ 31], []⟩ = some ⟨0, 0, [0], []⟩
    ∧ execOp Operation.Sub ⟨0, 0, [1, 0], []⟩ = some ⟨0, 0, [WORD - 1], []⟩ :=
  ⟨rfl, rfl, rfl, rfl, rfl, rfl, rfl, rfl, rfl⟩

/-- C6: the claim says each "By" immediate variant pushes `i ∘ b`.  In the
code only `ModImmediateBy` does (it pushes `i % b`); `SubImmediateBy(i)`
is byte-for-byte the `SubImmediate` arm and pushes `b - i` (here
`5 - 1 = 4`, where `i - b` would wrap to `2 ^ 32 - 4`), and
`DivImmediateBy(i)` pushes `b / i` (here `6 / 2 = 3`, where `i / b` would
be `2 / 6 = 0`).  The plain immediate variants push `b ∘ i` as claimed. -/
theorem immediate_by_variants_operand_order :
    execOp (Operation.SubImmediateBy 1) ⟨0, 0, [5], []⟩ = some ⟨0, 0, [4], []⟩
    ∧ execOp (Operation.SubImmediate 1) ⟨0, 0, [5], []⟩ = some ⟨0, 0, [4], []⟩
    ∧ (4 : Nat) ≠ wsub 1 5
    ∧ execOp (Operation.DivImmediateBy 2) ⟨0, 0, [6], []⟩ = some ⟨0, 0, [3], []⟩
    ∧ (3 : Nat) ≠ 2 / 6
    ∧ execOp (Operation.ModImmediateBy 7) ⟨0, 0, [3], []⟩ = some ⟨0, 0, [7 % 3], []⟩
    ∧ execOp (Operation.AddImmediate 2) ⟨0, 0, [5], []⟩ = some ⟨0, 0, [7], []⟩
    ∧ execOp (Operation.MulImmediate 3) ⟨0, 0, [5], []⟩ = some ⟨0, 0, [15], []⟩
    ∧ execOp (Operation.DivImmediate 2) ⟨0, 0, [7], []⟩ = some ⟨0, 0, [3], []⟩
    ∧ execOp (Operation.ModImmediate 4) ⟨0, 0, [7], []⟩ = some ⟨0, 0, [3], []⟩ := by
  refine ⟨rfl, rfl, by decide, rfl, by decide, rfl, rfl, rfl, rfl, rfl⟩

/-- C8 counterexample: `Put(0)` on the stack `[5, 7]` (length 2) leaves a
stack of length 1, not 2: `Put` pops the top and then overwrites in
place, so it shrinks the stack by one word. -/
theorem put_keeps_length_cex :
    ¬ ((execOp (Operation.Put 0) ⟨0, 0, [5, 7], []⟩).map
         (fun v => v.stack.length) = some 2) := by
  decide

/-- C8 amended: for every stack and valid depth `d`, `Put(d)` decreases
the stack length by exactly one (it pops the top word and overwrites the
word at depth `d`, counted after the pop, in place), and `Get(d)`
increases the stack length by exactly one. -/
theorem put_pops_get_pushes (i q d v w : Nat) (stack heap : List Nat)
    (hd : d < stack.length) (hw : stack[d]? = some w) :
    execOp (Operation.Put d) ⟨i, q, v :: stack, heap⟩
      = some ⟨i, q, stack.set d v, heap⟩
    ∧ (stack.set d v).length + 1 = (v :: stack).length
    ∧ execOp (Operation.Get d) ⟨i, q, stack, heap⟩ = some ⟨i, q, w :: stack, heap⟩
    ∧ (w :: stack).length = stack.length + 1 := by
  refine ⟨by simp [execOp, hd], by simp, by simp [execOp, hw], by simp⟩

/-- C8 witness at depth 0 on the stack `[7]` (with 5 pushed on top for
the `Put` part). -/
theorem put_pops_get_pushes_witness :
    (0 : Nat) < [(7 : Nat)].length ∧ [(7 : Nat)][0]? = some 7 ∧
    (execOp (Operation.Put 0) ⟨0, 0, [5, 7], []⟩
       = some ⟨0, 0, [(7 : Nat)].set 0 5, []⟩
     ∧ ([(7 : Nat)].set 0 5).length + 1 = [(5 : Nat), 7].length
     ∧ execOp (Operation.Get 0) ⟨0, 0, [7], []⟩ = some ⟨0, 0, [7, 7], []⟩
     ∧ [(7 : Nat), 7].length = [(7 : Nat)].length + 1) :=
  ⟨by decide, by decide, put_pops_get_pushes 0 0 0 5 7 [7] [] (by decide) (by decide)⟩

/-- C9: `Allocate(n)` pushes the heap length as it was before the
operation and appends `n` zero words; `Allocate(3)` immediately followed
by `Allocate(2)` therefore pushes two addresses exactly 3 apart; and for
every in-range address, `Store` then `Load` round-trips the written
word. -/
theorem allocate_store_load_roundtrip (i q n a v : Nat) (s heap : List Nat)
    (ha : a < heap.length) :
    execOp (Operation.Allocate n) ⟨i, q, s, heap⟩
      = some ⟨i, q, heap.length :: s, heap ++ List.replicate n 0⟩
    ∧ ((execOp (Operation.Allocate 3) ⟨i, q, s, heap⟩).bind
         (execOp (Operation.Allocate 2))
        = some ⟨i, q, (heap.length + 3) :: heap.length :: s,
                heap ++ List.replicate 3 0 ++ List.replicate 2 0⟩)
    ∧ (heap.length + 3) - heap.length = 3
    ∧ execOp (Operation.Store a) ⟨i, q, v :: s, heap⟩
        = some ⟨i, q, s, heap.set a v⟩
    ∧ execOp (Operation.Load a) ⟨i, q, s, heap.set a v⟩
        = some ⟨i, q, v :: s, heap.set a v⟩ := by
  refine ⟨rfl, by simp [execOp], by omega, by simp [execOp, ha], ?_⟩
  simp [execOp, List.getElem?_set_self ha]

/-- C9 witness at heap `[4]`, address 0, value 9. -/
theorem allocate_store_load_roundtrip_witness :
    (0 : Nat) < [(4 : Nat)].length ∧
    (execOp (Operation.Allocate 1) ⟨0, 0, [], [4]⟩
       = some ⟨0, 0, [[(4 : Nat)].length], [4] ++ List.replicate 1 0⟩
     ∧ ((execOp (Operation.Allocate 3) ⟨0, 0, [], [4]⟩).bind
          (execOp (Operation.Allocate 2))
         = some ⟨0, 0, [[(4 : Nat)].length + 3, [(4 : Nat)].length],
                 [4] ++ List.replicate 3 0 ++ List.replicate 2 0⟩)
     ∧ ([(4 : Nat)].length + 3) - [(4 : Nat)].length = 3
     ∧ execOp (Operation.Store 0) ⟨0, 0, [9], [4]⟩
         = some ⟨0, 0, [], [(4 : Nat)].set 0 9⟩
     ∧ execOp (Operation.Load 0) ⟨0, 0, [], [(4 : Nat)].set 0 9⟩
         = some ⟨0, 0, [9], [(4 : Nat)].set 0 9⟩) :=
  ⟨by decide, allocate_store_load_roundtrip 0 0 1 0 9 [] [4] (by decide)⟩

/-- C10: `Pop` on an empty operand stack is a silent no-op (the Rust arm
discards the `Option` that `Vec::pop` returns): the machine state before
the loop's uniform program counter increment is unchanged and no fault
occurs — unlike `Get`, `Put` and the arithmetic operations, whose
`unwrap`/indexing panics on an empty stack (modelled as `none`). -/
theorem pop_empty_silent_noop (i q d im : Nat) (heap : List Nat) :
    execOp Operation.Pop ⟨i, q, [], heap⟩ = some ⟨i, q, [], heap⟩
    ∧ execOp (Operation.Get d) ⟨i, q, [], heap⟩ = none
    ∧ execOp (Operation.Put d) ⟨i, q, [], heap⟩ = none
    ∧ execOp Operation.Add ⟨i, q, [], heap⟩ = none
    ∧ execOp Operation.Sub ⟨i, q, [], heap⟩ = none
    ∧ execOp Operation.Mul ⟨i, q, [], heap⟩ = none
    ∧ execOp Operation.Div ⟨i, q, [], heap⟩ = none
    ∧ execOp Operation.Mod ⟨i, q, [], heap⟩ = none
    ∧ execOp (Operation.AddImmediate im) ⟨i, q, [], heap⟩ = none
    ∧ execOp (Operation.SubImmediate im) ⟨i, q, [], heap⟩ = none
    ∧ execOp (Operation.SubImmediateBy im) ⟨i, q, [], heap⟩ = none
    ∧ execOp (Operation.MulImmediate im) ⟨i, q, [], heap⟩ = none
    ∧ execOp (Operation.DivImmediate im) ⟨i, q, [], heap⟩ = none
    ∧ execOp (Operation.DivImmediateBy im) ⟨i, q, [], heap⟩ = none
    ∧ execOp (Operation.ModImmediate im) ⟨i, q, [], heap⟩ = none
    ∧ execOp (Operation.ModImmediateBy im) ⟨i, q, [], heap⟩ = none := by
  refine ⟨rfl, by simp [execOp], rfl, rfl, rfl, rfl, rfl, rfl, rfl, rfl, rfl, rfl,
    rfl, rfl, rfl, rfl⟩

/-- C1: the claim states that the number of live bookkeeping placeholders
always equals the number of runtime words above the two saved control
words, in particular while a let-binding's initializer is being
compiled.  The spec's own lowering rule ("a let-binding lowers its
initializer, then re-labels that slot") keeps the equality, but the code
pushes the binding's placeholder before compiling the initializer, so
during the initializer the placeholder count exceeds the runtime word
count by one and every variable or parameter reference inside the
initializer resolves one slot too deep: a code bug.  Concretely, for
`fn f(a: u32): u32 { let x: u32 = a; return x; }` the compiler emits
`Get 3` for `a` although at runtime the argument sits at depth 2 (below
the two control words and zero local words): called with argument 42
above a caller word 99, the compiled code returns the caller's word 99;
with the drift-free `Get 2` it returns 42. -/
theorem let_initializer_bookkeeping_drift :
    compileFunction ["f"] letDecl
      = some [Operation.Get 3, Operation.Get 0, Operation.Put 3, Operation.Pop,
              Operation.Return]
    ∧ stepsN [[Operation.Get 3, Operation.Get 0, Operation.Put 3, Operation.Pop,
               Operation.Return]] 5 ⟨0, 0, [11, 6, 42, 99], []⟩
        = some ⟨11, 7, [99, 99], []⟩
    ∧ stepsN [[Operation.Get 2, Operation.Get 0, Operation.Put 3, Operation.Pop,
               Operation.Return]] 5 ⟨0, 0, [11, 6, 42, 99], []⟩
        = some ⟨11, 7, [42, 99], []⟩ :=
  ⟨rfl, rfl, rfl⟩

/-- C7: call lowering compiles the argument expressions in declaration
order and keeps every bookkeeping slot they produce (the emitted
sequence is the arguments' operations followed by `Call`, and the slot
list is exactly the one the arguments left); the return relocation is a
single `Put` at the depth of the last declared parameter.  Consequently,
in the compiled two-argument program `main { return add(3, 4); }`, eight
loop iterations after start (the instant `add` has returned) the stack
holds the result 7 with the residual first-argument word 3 beneath it,
and the residue disappears only with the discards of `main`'s enclosing
return statement (iteration 11). -/
theorem call_lowering_residual_argument_words
    (args : List (String × Ty)) (fns : List String) (fn_name : String)
    (es : List Expression) (ops opsA : List Operation)
    (lv lvA : List (Option String)) (idx : Nat)
    (h1 : compileExpressionList args fns es ops lv = some (opsA, lvA))
    (h2 : fns.findIdx? (fun s => s == fn_name) = some idx) :
    compileExpression args fns (Expression.Call fn_name es) ops lv
      = some (opsA ++ [Operation.Call idx], lvA)
    ∧ compile [addDecl, mainDecl]
        = some [[Operation.Get 3, Operation.Get 3, Operation.Add, Operation.Put 2,
                 Operation.Return],
                [Operation.Push 3, Operation.Push 4, Operation.Call 0,
                 Operation.Put 3, Operation.Pop, Operation.Return]]
    ∧ stepsN [[Operation.Get 3, Operation.Get 3, Operation.Add, Operation.Put 2,
               Operation.Return],
              [Operation.Push 3, Operation.Push 4, Operation.Call 0,
               Operation.Put 3, Operation.Pop, Operation.Return]] 8
        (fromFunctions ["add", "main"])
        = some ⟨1, 3, [7, 3, sentinel, 0, 0], []⟩
    ∧ stepsN [[Operation.Get 3, Operation.Get 3, Operation.Add, Operation.Put 2,
               Operation.Return],
              [Operation.Push 3, Operation.Push 4, Operation.Call 0,
               Operation.Put 3, Operation.Pop, Operation.Return]] 11
        (fromFunctions ["add", "main"])
        = some ⟨sentinel, 1, [7], []⟩ := by
  refine ⟨?_, rfl, rfl, rfl⟩
  simp [compileExpression, h1, h2]

/-- C7 witness: the call `add(3, 4)` inside `main`. -/
theorem call_lowering_residual_argument_words_witness :
    compileExpressionList [] ["add", "main"]
        [Expression.NumLiteral 3, Expression.NumLiteral 4] [] []
      = some ([Operation.Push 3, Operation.Push 4], [none, none]) ∧
    ["add", "main"].findIdx? (fun s => s == "add") = some 0 ∧
    compileExpression [] ["add", "main"]
        (Expression.Call "add" [Expression.NumLiteral 3, Expression.NumLiteral 4]) [] []
      = some ([Operation.Push 3, Operation.Push 4] ++ [Operation.Call 0],
              [none, none]) :=
  ⟨by decide, by decide,
   (call_lowering_residual_argument_words [] ["add", "main"] "add"
      [Expression.NumLiteral 3, Expression.NumLiteral 4] []
      [Operation.Push 3, Operation.Push 4] [] [none, none] 0
      (by decide) (by decide)).1⟩

/-! ## C2: the call/return round trip for a function with `N` parameters
and `K` declared locals -/

/-- Folding `compile_statement` distributes over concatenated statement
lists. -/
theorem compileStatements_append (args : List (String × Ty)) (fns : List String)
    (l1 l2 : List Statement) :
    ∀ ops lv, compileStatements args fns (l1 ++ l2) ops lv
      = (compileStatements args fns l1 ops lv).bind fun r =>
          compileStatements args fns l2 r.1 r.2 := by
  induction l1 with
  | nil => intro ops lv; rfl
  | cons s ss ih =>
      intro ops lv
      simp only [List.cons_append, compileStatements]
      cases h : compileStatement args fns s ops lv with
      | none => simp
      | some r => simp [ih]

/-- The loop iterates additively. -/
theorem stepsN_add (tbl : List (List Operation)) (m n : Nat) :
    ∀ vm, stepsN tbl (m + n) vm = (stepsN tbl m vm).bind (stepsN tbl n) := by
  induction m with
  | zero => intro vm; simp [stepsN, Nat.zero_add]
  | succ m ih =>
      intro vm
      rw [show m + 1 + n = (m + n) + 1 from by omega]
      show (stepM tbl vm).bind (stepsN tbl (m + n))
        = ((stepM tbl vm).bind (stepsN tbl m)).bind (stepsN tbl n)
      cases h : stepM tbl vm with
      | none => simp
      | some v => simp [ih]


/-- One loop iteration is one `stepM`. -/
theorem stepsN_one (tbl : List (List Operation)) (vm : VirtualMachine) :
    stepsN tbl 1 vm = stepM tbl vm := by
  show (stepM tbl vm).bind (stepsN tbl 0) = stepM tbl vm
  cases stepM tbl vm <;> rfl

/-- One loop iteration of a straight-line operation (one whose `execOp`
leaves the program counter alone): fetch, execute, uniform increment. -/
theorem stepM_straight (F : List Operation) (pc : Nat) (op : Operation)
    (S Sx heap heapx : List Nat)
    (h1 : F[pc]? = some op)
    (h2 : execOp op ⟨0, pc, S, heap⟩ = some ⟨0, pc, Sx, heapx⟩)
    (h3 : pc + 1 < WORD) :
    stepM [F] ⟨0, pc, S, heap⟩ = some ⟨0, pc + 1, Sx, heapx⟩ := by
  have h0 : (0 : Nat) ≠ sentinel := by decide
  simp [stepM, h0, h1, stepOp, h2, wadd_one_of_lt h3]

/-- Fetching inside a middle code segment of a function body. -/
theorem getElem?_append_middle (F P E Q : List Operation)
    (hF : F = P ++ (E ++ Q)) (k : Nat) (hk : k < E.length) :
    F[P.length + k]? = E[k]? := by
  subst hF
  rw [List.getElem?_append_right (Nat.le_add_right _ _)]
  rw [Nat.add_sub_cancel_left]
  rw [List.getElem?_append, if_pos hk]

/-- Every two-operand arithmetic operation pops two words and pushes
one, never faulting, whatever the operand values. -/
theorem execOp_binArith (op : Operation) (h : isBinArith op = true)
    (pc b a : Nat) (rest heap : List Nat) :
    ∃ w, execOp op ⟨0, pc, b :: a :: rest, heap⟩
          = some ⟨0, pc, w :: rest, heap⟩ := by
  cases op <;> simp [isBinArith] at h <;> exact ⟨_, rfl⟩

/-- The compiled recursive call loops through `Call` forever: after `n`
iterations the machine is again at instruction 0 of function 0, with
`2 * n` more control words piled on the stack. -/
theorem recursive_call_loop :
    ∀ (n : Nat) (S heap : List Nat),
    stepsN [[Operation.Call 0, Operation.Put 2, Operation.Return]] n ⟨0, 0, S, heap⟩
      = some ⟨0, 0, List.replicate (2 * n) 0 ++ S, heap⟩ := by
  intro n
  induction n with
  | zero => intro S heap; simp [stepsN]
  | succ n ih =>
      intro S heap
      have hstep : stepM [[Operation.Call 0, Operation.Put 2, Operation.Return]]
          ⟨0, 0, S, heap⟩ = some ⟨0, 0, 0 :: 0 :: S, heap⟩ := by
        simp [stepM, (show (0 : Nat) ≠ sentinel from by decide), stepOp, execOp,
          wadd, sentinel, WORD]
      rw [stepsN, hstep, Option.some_bind, ih]
      rw [show 2 * (n + 1) = 2 * n + 2 from by omega, List.replicate_add,
        List.append_assoc]
      rfl


/-- Unfolding `Option.orElse` on a found value. -/
theorem some_orElse_eq {α : Type} (a : α) (f : Unit → Option α) :
    (some a).orElse f = some a := rfl

/-- Unfolding `Option.orElse` on a missed first lookup. -/
theorem none_orElse_eq {α : Type} (f : Unit → Option α) :
    (Option.none).orElse f = f () := rfl

/-- One loop iteration of an in-range `Get`: it duplicates a word onto
the top of the stack and leaves everything else alone. -/
theorem run_get_step (F P Q : List Operation) (index : Nat) (S heap : List Nat)
    (hF : F = P ++ ([Operation.Get index] ++ Q))
    (hidx : index < S.length)
    (hW : P.length + 1 < WORD) :
    ∃ w, stepsN [F] 1 ⟨0, P.length, S, heap⟩
          = some ⟨0, P.length + 1, w :: S, heap⟩ := by
  obtain ⟨w, hw⟩ : ∃ w, S[index]? = some w := by
    rw [List.getElem?_eq_getElem hidx]
    exact ⟨_, rfl⟩
  refine ⟨w, ?_⟩
  rw [stepsN_one]
  refine stepM_straight F P.length (Operation.Get index) S (w :: S) heap heap ?_ ?_ hW
  · have := getElem?_append_middle F P [Operation.Get index] Q hF 0 (by simp)
    simpa using this
  · simp [execOp, hw]

/-- Compiling a call-free expression appends a straight-line code
segment `E` and exactly one anonymous bookkeeping slot; and running `E`
(at its position inside any enclosing function body) from any stack
deep enough for the emitted read depths pushes exactly one word on top
of the untouched stack, advancing the program counter by `E.length`
without faulting. -/
theorem compileExpression_callFree_sim (args : List (String × Ty)) (fns : List String) :
    ∀ (e : Expression), callFreeE e = true →
    ∀ ops lv r, compileExpression args fns e ops lv = some r →
    ∃ E, r.1 = ops ++ E ∧ r.2 = lv ++ [none] ∧
      ∀ (F P Q : List Operation) (S heap : List Nat),
        F = P ++ (E ++ Q) →
        lv.length + args.length + 2 ≤ S.length →
        P.length + E.length < WORD →
        ∃ w, stepsN [F] E.length ⟨0, P.length, S, heap⟩
              = some ⟨0, P.length + E.length, w :: S, heap⟩
  | .NumLiteral n, _, ops, lv, r, hr => by
      simp only [compileExpression, Option.some.injEq] at hr
      subst hr
      refine ⟨[Operation.Push n], rfl, rfl, ?_⟩
      intro F P Q S heap hF hS hW
      refine ⟨n, ?_⟩
      rw [show ([Operation.Push n] : List Operation).length = 1 from rfl] at hW ⊢
      rw [stepsN_one]
      refine stepM_straight F P.length (Operation.Push n) S (n :: S) heap heap ?_ rfl hW
      have := getElem?_append_middle F P [Operation.Push n] Q hF 0 (by simp)
      simpa using this
  | .Variable name, _, ops, lv, r, hr => by
      simp only [compileExpression] at hr
      rcases hloc : lv.reverse.findIdx? (fun v => v == some name) with _ | i
      · rw [hloc, none_orElse_eq] at hr
        rcases hpar : args.reverse.findIdx? (fun a => a.1 == name) with _ | j
        · rw [hpar] at hr
          simp at hr
        · rw [hpar] at hr
          simp only [Option.bind_eq_bind, Option.map_some', Option.some_bind, Option.some.injEq] at hr
          subst hr
          have hj : j < args.length := by
            have := (List.findIdx?_eq_some_iff_findIdx_eq.mp hpar).1
            simpa using this
          refine ⟨[Operation.Get (j + lv.length + 2)], rfl, rfl, ?_⟩
          intro F P Q S heap hF hS hW
          rw [show ([Operation.Get (j + lv.length + 2)] : List Operation).length = 1
            from rfl] at hW ⊢
          exact run_get_step F P Q (j + lv.length + 2) S heap hF (by omega) hW
      · rw [hloc, some_orElse_eq] at hr
        simp only [Option.bind_eq_bind, Option.some_bind, Option.some.injEq] at hr
        subst hr
        have hi : i < lv.length := by
          have := (List.findIdx?_eq_some_iff_findIdx_eq.mp hloc).1
          simpa using this
        refine ⟨[Operation.Get i], rfl, rfl, ?_⟩
        intro F P Q S heap hF hS hW
        rw [show ([Operation.Get i] : List Operation).length = 1 from rfl] at hW ⊢
        exact run_get_step F P Q i S heap hF (by omega) hW
  | .Call f es, h, ops, lv, r, hr => by
      simp [callFreeE] at h
  | .Add e1 e2, h, ops, lv, r, hr => by
      simp only [callFreeE, Bool.and_eq_true] at h
      simp only [compileExpression] at hr
      cases h1 : compileExpression args fns e1 ops lv with
      | none => rw [h1] at hr; simp at hr
      | some r1 =>
          rw [h1] at hr
          simp only [Option.bind_eq_bind, Option.some_bind] at hr
          cases h2 : compileExpression args fns e2 r1.1 r1.2 with
          | none => rw [h2] at hr; simp at hr
          | some r2 =>
              rw [h2] at hr
              simp only [Option.bind_eq_bind, Option.some_bind, Option.some.injEq] at hr
              subst hr
              obtain ⟨E1, hE1, hlv1, sim1⟩ :=
                compileExpression_callFree_sim args fns e1 h.1 ops lv r1 h1
              obtain ⟨E2, hE2, hlv2, sim2⟩ :=
                compileExpression_callFree_sim args fns e2 h.2 r1.1 r1.2 r2 h2
              refine ⟨E1 ++ (E2 ++ [Operation.Add]), ?_, ?_, ?_⟩
              · simp [hE2, hE1, List.append_assoc]
              · simp [hlv2, hlv1, List.dropLast_concat]
              · intro F P Q S heap hF hS hW
                simp only [List.length_append, List.length_cons,
                  List.length_nil] at hW
                obtain ⟨w1, hw1⟩ := sim1 F P (E2 ++ ([Operation.Add] ++ Q)) S heap
                  (by rw [hF]; simp [List.append_assoc]) hS (by omega)
                obtain ⟨w2, hw2⟩ := sim2 F (P ++ E1) ([Operation.Add] ++ Q)
                  (w1 :: S) heap (by rw [hF]; simp [List.append_assoc])
                  (by simp [hlv1]; omega) (by simp [List.length_append]; omega)
                rw [List.length_append] at hw2
                obtain ⟨w, hw⟩ := execOp_binArith Operation.Add (by rfl)
                  (P.length + E1.length + E2.length) w2 w1 S heap
                refine ⟨w, ?_⟩
                rw [show (E1 ++ (E2 ++ [Operation.Add])).length
                    = E1.length + (E2.length + 1) from by simp]
                rw [stepsN_add, hw1, Option.some_bind, stepsN_add, hw2,
                  Option.some_bind, stepsN_one]
                have hfetch : F[P.length + E1.length + E2.length]?
                    = some Operation.Add := by
                  have := getElem?_append_middle F ((P ++ E1) ++ E2)
                    [Operation.Add] Q
                    (by rw [hF]; simp [List.append_assoc]) 0 (by simp)
                  simpa [List.length_append, Nat.add_assoc] using this
                have hstep := stepM_straight F (P.length + E1.length + E2.length)
                  Operation.Add (w2 :: w1 :: S) (w :: S) heap heap hfetch hw
                  (by omega)
                rw [show P.length + E1.length + E2.length
                    = P.length + E1.length + E2.length from rfl] at hstep
                rw [hstep]
                rw [show P.length + (E1.length + (E2.length + 1))
                    = P.length + E1.length + E2.length + 1 from by omega]
  | .Sub e1 e2, h, ops, lv, r, hr => by
      simp only [callFreeE, Bool.and_eq_true] at h
      simp only [compileExpression] at hr
      cases h1 : compileExpression args fns e1 ops lv with
      | none => rw [h1] at hr; simp at hr
      | some r1 =>
          rw [h1] at hr
          simp only [Option.bind_eq_bind, Option.some_bind] at hr
          cases h2 : compileExpression args fns e2 r1.1 r1.2 with
          | none => rw [h2] at hr; simp at hr
          | some r2 =>
              rw [h2] at hr
              simp only [Option.bind_eq_bind, Option.some_bind, Option.some.injEq] at hr
              subst hr
              obtain ⟨E1, hE1, hlv1, sim1⟩ :=
                compileExpression_callFree_sim args fns e1 h.1 ops lv r1 h1
              obtain ⟨E2, hE2, hlv2, sim2⟩ :=
                compileExpression_callFree_sim args fns e2 h.2 r1.1 r1.2 r2 h2
              refine ⟨E1 ++ (E2 ++ [Operation.Sub]), ?_, ?_, ?_⟩
              · simp [hE2, hE1, List.append_assoc]
              · simp [hlv2, hlv1, List.dropLast_concat]
              · intro F P Q S heap hF hS hW
                simp only [List.length_append, List.length_cons,
                  List.length_nil] at hW
                obtain ⟨w1, hw1⟩ := sim1 F P (E2 ++ ([Operation.Sub] ++ Q)) S heap
                  (by rw [hF]; simp [List.append_assoc]) hS (by omega)
                obtain ⟨w2, hw2⟩ := sim2 F (P ++ E1) ([Operation.Sub] ++ Q)
                  (w1 :: S) heap (by rw [hF]; simp [List.append_assoc])
                  (by simp [hlv1]; omega) (by simp [List.length_append]; omega)
                rw [List.length_append] at hw2
                obtain ⟨w, hw⟩ := execOp_binArith Operation.Sub (by rfl)
                  (P.length + E1.length + E2.length) w2 w1 S heap
                refine ⟨w, ?_⟩
                rw [show (E1 ++ (E2 ++ [Operation.Sub])).length
                    = E1.length + (E2.length + 1) from by simp]
                rw [stepsN_add, hw1, Option.some_bind, stepsN_add, hw2,
                  Option.some_bind, stepsN_one]
                have hfetch : F[P.length + E1.length + E2.length]?
                    = some Operation.Sub := by
                  have := getElem?_append_middle F ((P ++ E1) ++ E2)
                    [Operation.Sub] Q
                    (by rw [hF]; simp [List.append_assoc]) 0 (by simp)
                  simpa [List.length_append, Nat.add_assoc] using this
                have hstep := stepM_straight F (P.length + E1.length + E2.length)
                  Operation.Sub (w2 :: w1 :: S) (w :: S) heap heap hfetch hw
                  (by omega)
                rw [show P.length + E1.length + E2.length
                    = P.length + E1.length + E2.length from rfl] at hstep
                rw [hstep]
                rw [show P.length + (E1.length + (E2.length + 1))
                    = P.length + E1.length + E2.length + 1 from by omega]
  | .Mul e1 e2, h, ops, lv, r, hr => by
      simp only [callFreeE, Bool.and_eq_true] at h
      simp only [compileExpression] at hr
      cases h1 : compileExpression args fns e1 ops lv with
      | none => rw [h1] at hr; simp at hr
      | some r1 =>
          rw [h1] at hr
          simp only [Option.bind_eq_bind, Option.some_bind] at hr
          cases h2 : compileExpression args fns e2 r1.1 r1.2 with
          | none => rw [h2] at hr; simp at hr
          | some r2 =>
              rw [h2] at hr
              simp only [Option.bind_eq_bind, Option.some_bind, Option.some.injEq] at hr
              subst hr
              obtain ⟨E1, hE1, hlv1, sim1⟩ :=
                compileExpression_callFree_sim args fns e1 h.1 ops lv r1 h1
              obtain ⟨E2, hE2, hlv2, sim2⟩ :=
                compileExpression_callFree_sim args fns e2 h.2 r1.1 r1.2 r2 h2
              refine ⟨E1 ++ (E2 ++ [Operation.Mul]), ?_, ?_, ?_⟩
              · simp [hE2, hE1, List.append_assoc]
              · simp [hlv2, hlv1, List.dropLast_concat]
              · intro F P Q S heap hF hS hW
                simp only [List.length_append, List.length_cons,
                  List.length_nil] at hW
                obtain ⟨w1, hw1⟩ := sim1 F P (E2 ++ ([Operation.Mul] ++ Q)) S heap
                  (by rw [hF]; simp [List.append_assoc]) hS (by omega)
                obtain ⟨w2, hw2⟩ := sim2 F (P ++ E1) ([Operation.Mul] ++ Q)
                  (w1 :: S) heap (by rw [hF]; simp [List.append_assoc])
                  (by simp [hlv1]; omega) (by simp [List.length_append]; omega)
                rw [List.length_append] at hw2
                obtain ⟨w, hw⟩ := execOp_binArith Operation.Mul (by rfl)
                  (P.length + E1.length + E2.length) w2 w1 S heap
                refine ⟨w, ?_⟩
                rw [show (E1 ++ (E2 ++ [Operation.Mul])).length
                    = E1.length + (E2.length + 1) from by simp]
                rw [stepsN_add, hw1, Option.some_bind, stepsN_add, hw2,
                  Option.some_bind, stepsN_one]
                have hfetch : F[P.length + E1.length + E2.length]?
                    = some Operation.Mul := by
                  have := getElem?_append_middle F ((P ++ E1) ++ E2)
                    [Operation.Mul] Q
                    (by rw [hF]; simp [List.append_assoc]) 0 (by simp)
                  simpa [List.length_append, Nat.add_assoc] using this
                have hstep := stepM_straight F (P.length + E1.length + E2.length)
                  Operation.Mul (w2 :: w1 :: S) (w :: S) heap heap hfetch hw
                  (by omega)
                rw [show P.length + E1.length + E2.length
                    = P.length + E1.length + E2.length from rfl] at hstep
                rw [hstep]
                rw [show P.length + (E1.length + (E2.length + 1))
                    = P.length + E1.length + E2.length + 1 from by omega]
  | .Div e1 e2, h, ops, lv, r, hr => by
      simp only [callFreeE, Bool.and_eq_true] at h
      simp only [compileExpression] at hr
      cases h1 : compileExpression args fns e1 ops lv with
      | none => rw [h1] at hr; simp at hr
      | some r1 =>
          rw [h1] at hr
          simp only [Option.bind_eq_bind, Option.some_bind] at hr
          cases h2 : compileExpression args fns e2 r1.1 r1.2 with
          | none => rw [h2] at hr; simp at hr
          | some r2 =>
              rw [h2] at hr
              simp only [Option.bind_eq_bind, Option.some_bind, Option.some.injEq] at hr
              subst hr
              obtain ⟨E1, hE1, hlv1, sim1⟩ :=
                compileExpression_callFree_sim args fns e1 h.1 ops lv r1 h1
              obtain ⟨E2, hE2, hlv2, sim2⟩ :=
                compileExpression_callFree_sim args fns e2 h.2 r1.1 r1.2 r2 h2
              refine ⟨E1 ++ (E2 ++ [Operation.Div]), ?_, ?_, ?_⟩
              · simp [hE2, hE1, List.append_assoc]
              · simp [hlv2, hlv1, List.dropLast_concat]
              · intro F P Q S heap hF hS hW
                simp only [List.length_append, List.length_cons,
                  List.length_nil] at hW
                obtain ⟨w1, hw1⟩ := sim1 F P (E2 ++ ([Operation.Div] ++ Q)) S heap
                  (by rw [hF]; simp [List.append_assoc]) hS (by omega)
                obtain ⟨w2, hw2⟩ := sim2 F (P ++ E1) ([Operation.Div] ++ Q)
                  (w1 :: S) heap (by rw [hF]; simp [List.append_assoc])
                  (by simp [hlv1]; omega) (by simp [List.length_append]; omega)
                rw [List.length_append] at hw2
                obtain ⟨w, hw⟩ := execOp_binArith Operation.Div (by rfl)
                  (P.length + E1.length + E2.length) w2 w1 S heap
                refine ⟨w, ?_⟩
                rw [show (E1 ++ (E2 ++ [Operation.Div])).length
                    = E1.length + (E2.length + 1) from by simp]
                rw [stepsN_add, hw1, Option.some_bind, stepsN_add, hw2,
                  Option.some_bind, stepsN_one]
                have hfetch : F[P.length + E1.length + E2.length]?
                    = some Operation.Div := by
                  have := getElem?_append_middle F ((P ++ E1) ++ E2)
                    [Operation.Div] Q
                    (by rw [hF]; simp [List.append_assoc]) 0 (by simp)
                  simpa [List.length_append, Nat.add_assoc] using this
                have hstep := stepM_straight F (P.length + E1.length + E2.length)
                  Operation.Div (w2 :: w1 :: S) (w :: S) heap heap hfetch hw
                  (by omega)
                rw [show P.length + E1.length + E2.length
                    = P.length + E1.length + E2.length from rfl] at hstep
                rw [hstep]
                rw [show P.length + (E1.length + (E2.length + 1))
                    = P.length + E1.length + E2.length + 1 from by omega]
  | .Mod e1 e2, h, ops, lv, r, hr => by
      simp only [callFreeE, Bool.and_eq_true] at h
      simp only [compileExpression] at hr
      cases h1 : compileExpression args fns e1 ops lv with
      | none => rw [h1] at hr; simp at hr
      | some r1 =>
          rw [h1] at hr
          simp only [Option.bind_eq_bind, Option.some_bind] at hr
          cases h2 : compileExpression args fns e2 r1.1 r1.2 with
          | none => rw [h2] at hr; simp at hr
          | some r2 =>
              rw [h2] at hr
              simp only [Option.bind_eq_bind, Option.some_bind, Option.some.injEq] at hr
              subst hr
              obtain ⟨E1, hE1, hlv1, sim1⟩ :=
                compileExpression_callFree_sim args fns e1 h.1 ops lv r1 h1
              obtain ⟨E2, hE2, hlv2, sim2⟩ :=
                compileExpression_callFree_sim args fns e2 h.2 r1.1 r1.2 r2 h2
              refine ⟨E1 ++ (E2 ++ [Operation.Mod]), ?_, ?_, ?_⟩
              · simp [hE2, hE1, List.append_assoc]
              · simp [hlv2, hlv1, List.dropLast_concat]
              · intro F P Q S heap hF hS hW
                simp only [List.length_append, List.length_cons,
                  List.length_nil] at hW
                obtain ⟨w1, hw1⟩ := sim1 F P (E2 ++ ([Operation.Mod] ++ Q)) S heap
                  (by rw [hF]; simp [List.append_assoc]) hS (by omega)
                obtain ⟨w2, hw2⟩ := sim2 F (P ++ E1) ([Operation.Mod] ++ Q)
                  (w1 :: S) heap (by rw [hF]; simp [List.append_assoc])
                  (by simp [hlv1]; omega) (by simp [List.length_append]; omega)
                rw [List.length_append] at hw2
                obtain ⟨w, hw⟩ := execOp_binArith Operation.Mod (by rfl)
                  (P.length + E1.length + E2.length) w2 w1 S heap
                refine ⟨w, ?_⟩
                rw [show (E1 ++ (E2 ++ [Operation.Mod])).length
                    = E1.length + (E2.length + 1) from by simp]
                rw [stepsN_add, hw1, Option.some_bind, stepsN_add, hw2,
                  Option.some_bind, stepsN_one]
                have hfetch : F[P.length + E1.length + E2.length]?
                    = some Operation.Mod := by
                  have := getElem?_append_middle F ((P ++ E1) ++ E2)
                    [Operation.Mod] Q
                    (by rw [hF]; simp [List.append_assoc]) 0 (by simp)
                  simpa [List.length_append, Nat.add_assoc] using this
                have hstep := stepM_straight F (P.length + E1.length + E2.length)
                  Operation.Mod (w2 :: w1 :: S) (w :: S) heap heap hfetch hw
                  (by omega)
                rw [show P.length + E1.length + E2.length
                    = P.length + E1.length + E2.length from rfl] at hstep
                rw [hstep]
                rw [show P.length + (E1.length + (E2.length + 1))
                    = P.length + E1.length + E2.length + 1 from by omega]


/-- The `Let` branch of `compile_statement` as a single equation: the
binding's placeholder is pushed before the initializer is compiled
(both `Type` variants have size 1), and the initializer's own anonymous
slot is removed afterwards. -/
theorem compileStatement_Let_eq (args : List (String × Ty)) (fns : List String)
    (name : String) (t : Ty) (e : Expression) (ops : List Operation)
    (lv : List (Option String)) :
    compileStatement args fns (Statement.Let name (some t) e) ops lv
      = (compileExpression args fns e ops (lv ++ [some name])).bind
          (fun re => some (re.1, re.2.dropLast)) := by
  have hsz : size_of t = 1 := by cases t <;> rfl
  cases h : compileExpression args fns e ops (lv ++ [some name]) with
  | none => simp [compileStatement, hsz, h]
  | some re => simp [compileStatement, hsz, h]

/-- The `Expr` branch of `compile_statement` as a single equation. -/
theorem compileStatement_Expr_eq (args : List (String × Ty)) (fns : List String)
    (e : Expression) (ops : List Operation) (lv : List (Option String)) :
    compileStatement args fns (Statement.Expr e) ops lv
      = (compileExpression args fns e ops lv).bind
          (fun re => some (re.1 ++ [Operation.Pop], re.2.dropLast)) := by
  cases h : compileExpression args fns e ops lv with
  | none => simp [compileStatement, h]
  | some re => simp [compileStatement, h]

/-- The `Return` branch of `compile_statement` as a single equation. -/
theorem compileStatement_Return_eq (args : List (String × Ty)) (fns : List String)
    (e : Expression) (ops : List Operation) (lv : List (Option String)) :
    compileStatement args fns (Statement.Return e) ops lv
      = (compileExpression args fns e ops lv).bind
          (fun re => some ((re.1 ++ [Operation.Put (re.2.dropLast.length + 2)])
              ++ List.replicate re.2.dropLast.length Operation.Pop
              ++ [Operation.Return],
            re.2.dropLast)) := by
  cases h : compileExpression args fns e ops lv with
  | none => simp [compileStatement, h]
  | some re => simp [compileStatement, h]


/-- Compiling a block of call-free, return-free statements appends a
straight-line code segment; running that segment touches only the
working words above the frame (the saved control words, the arguments
and the caller words beneath stay in place), and the number of working
words afterwards equals the number of live bookkeeping slots — the
bookkeeping/runtime alignment at statement granularity. -/
theorem compileStatements_callFree_sim (args : List (String × Ty)) (fns : List String) :
    ∀ (stmts : List Statement),
    (∀ s ∈ stmts, callFreeS s = true ∧ isReturnS s = false) →
    ∀ ops lv r, compileStatements args fns stmts ops lv = some r →
    ∃ E, r.1 = ops ++ E ∧
      ∀ (F P Q : List Operation) (W D heap : List Nat),
        F = P ++ (E ++ Q) →
        W.length = lv.length →
        args.length + 3 ≤ D.length →
        P.length + E.length < WORD →
        ∃ W2, W2.length = r.2.length ∧
          stepsN [F] E.length ⟨0, P.length, W ++ D, heap⟩
            = some ⟨0, P.length + E.length, W2 ++ D, heap⟩ := by
  intro stmts
  induction stmts with
  | nil =>
      intro _ ops lv r hr
      simp only [compileStatements, Option.some.injEq] at hr
      subst hr
      refine ⟨[], by simp, ?_⟩
      intro F P Q W D heap hF hW hD hWord
      exact ⟨W, hW, by simp [stepsN]⟩
  | cons s ss ih =>
      intro hall ops lv r hr
      have hs := hall s (by simp)
      have hss : ∀ t ∈ ss, callFreeS t = true ∧ isReturnS t = false :=
        fun t ht => hall t (by simp [ht])
      simp only [compileStatements] at hr
      cases h1 : compileStatement args fns s ops lv with
      | none => rw [h1] at hr; simp at hr
      | some r1 =>
          rw [h1] at hr
          simp only [Option.bind_eq_bind, Option.some_bind] at hr
          obtain ⟨Ess, hEss, simss⟩ := ih hss r1.1 r1.2 r hr
          cases s with
          | Return e => simp [isReturnS] at hs
          | Let name vty e =>
              cases vty with
              | none => simp [compileStatement] at h1
              | some t =>
                  rw [compileStatement_Let_eq] at h1
                  cases h2 : compileExpression args fns e ops (lv ++ [some name]) with
                  | none => rw [h2] at h1; simp at h1
                  | some re =>
                      rw [h2] at h1
                      simp only [Option.some_bind, Option.some.injEq] at h1
                      subst h1
                      obtain ⟨Ee, hEe, hlve, sime⟩ :=
                        compileExpression_callFree_sim args fns e
                          (by simpa [callFreeS] using hs.1) ops (lv ++ [some name]) re h2
                      have hr12 : re.2.dropLast = lv ++ [some name] := by
                        rw [hlve]
                        simp [List.dropLast_concat]
                      refine ⟨Ee ++ Ess, ?_, ?_⟩
                      · rw [hEss]
                        simp [hEe, List.append_assoc]
                      · intro F P Q W D heap hF hW hD hWord
                        simp only [List.length_append] at hWord
                        obtain ⟨w, hw⟩ := sime F P (Ess ++ Q) (W ++ D) heap
                          (by rw [hF]; simp [List.append_assoc])
                          (by simp [List.length_append]; omega)
                          (by omega)
                        obtain ⟨W2, hW2, hrun2⟩ := simss F (P ++ Ee) Q (w :: W) D heap
                          (by rw [hF]; simp [List.append_assoc])
                          (by simp [hr12, hW])
                          hD
                          (by simp [List.length_append]; omega)
                        simp [List.length_append] at hrun2
                        refine ⟨W2, hW2, ?_⟩
                        rw [show (Ee ++ Ess).length = Ee.length + Ess.length from by simp]
                        rw [stepsN_add, hw, Option.some_bind, hrun2]
                        rw [show P.length + (Ee.length + Ess.length)
                            = P.length + Ee.length + Ess.length from by omega]
          | Expr e =>
              rw [compileStatement_Expr_eq] at h1
              cases h2 : compileExpression args fns e ops lv with
              | none => rw [h2] at h1; simp at h1
              | some re =>
                  rw [h2] at h1
                  simp only [Option.some_bind, Option.some.injEq] at h1
                  subst h1
                  obtain ⟨Ee, hEe, hlve, sime⟩ :=
                    compileExpression_callFree_sim args fns e
                      (by simpa [callFreeS] using hs.1) ops lv re h2
                  have hr12 : re.2.dropLast = lv := by
                    rw [hlve]
                    simp [List.dropLast_concat]
                  refine ⟨Ee ++ ([Operation.Pop] ++ Ess), ?_, ?_⟩
                  · rw [hEss]
                    simp [hEe, List.append_assoc]
                  · intro F P Q W D heap hF hW hD hWord
                    simp only [List.length_append, List.length_cons,
                      List.length_nil, Nat.zero_add] at hWord
                    obtain ⟨w, hw⟩ := sime F P ([Operation.Pop] ++ (Ess ++ Q))
                      (W ++ D) heap
                      (by rw [hF]; simp [List.append_assoc])
                      (by simp [List.length_append]; omega)
                      (by omega)
                    have hpop : stepM [F] ⟨0, P.length + Ee.length, w :: (W ++ D), heap⟩
                        = some ⟨0, P.length + Ee.length + 1, W ++ D, heap⟩ := by
                      refine stepM_straight F (P.length + Ee.length) Operation.Pop
                        (w :: (W ++ D)) (W ++ D) heap heap ?_ rfl (by omega)
                      have := getElem?_append_middle F (P ++ Ee) [Operation.Pop]
                        (Ess ++ Q) (by rw [hF]; simp [List.append_assoc]) 0 (by simp)
                      simpa [List.length_append] using this
                    obtain ⟨W2, hW2, hrun2⟩ := simss F ((P ++ Ee) ++ [Operation.Pop]) Q
                      W D heap
                      (by rw [hF]; simp [List.append_assoc])
                      (by simp [hr12, hW])
                      hD
                      (by simp [List.length_append]; omega)
                    simp [List.length_append] at hrun2
                    rw [show P.length + (Ee.length + 1)
                        = P.length + Ee.length + 1 from by omega] at hrun2
                    refine ⟨W2, hW2, ?_⟩
                    rw [show (Ee ++ ([Operation.Pop] ++ Ess)).length
                        = Ee.length + (1 + Ess.length) from by simp; omega]
                    rw [stepsN_add, hw, Option.some_bind]
                    rw [stepsN_add, stepsN_one, hpop, Option.some_bind, hrun2]
                    rw [show P.length + (Ee.length + (1 + Ess.length))
                        = P.length + Ee.length + 1 + Ess.length from by omega]


/-- Running a block of `j` consecutive `Pop` operations discards the
top `j` words. -/
theorem run_pop_block (F : List Operation) :
    ∀ (j pc0 : Nat) (W R heap : List Nat),
    W.length = j →
    (∀ k, k < j → F[pc0 + k]? = some Operation.Pop) →
    pc0 + j < WORD →
    stepsN [F] j ⟨0, pc0, W ++ R, heap⟩ = some ⟨0, pc0 + j, R, heap⟩ := by
  intro j
  induction j with
  | zero =>
      intro pc0 W R heap hW _ _
      have hnil : W = [] := List.length_eq_zero.mp hW
      subst hnil
      simp [stepsN]
  | succ j ih =>
      intro pc0 W R heap hW hfetch hword
      cases W with
      | nil => simp at hW
      | cons w W2 =>
          have hstep : stepM [F] ⟨0, pc0, (w :: W2) ++ R, heap⟩
              = some ⟨0, pc0 + 1, W2 ++ R, heap⟩ := by
            refine stepM_straight F pc0 Operation.Pop ((w :: W2) ++ R) (W2 ++ R)
              heap heap ?_ rfl (by omega)
            have := hfetch 0 (by omega)
            simpa using this
          rw [stepsN, hstep, Option.some_bind]
          rw [ih (pc0 + 1) W2 R heap (by simpa using hW)
            (fun k hk => by
              have := hfetch (k + 1) (by omega)
              rw [show pc0 + 1 + k = pc0 + (k + 1) from by omega]
              exact this)
            (by omega)]
          rw [show pc0 + 1 + j = pc0 + (j + 1) from by omega]


/-- C2 (amended): for every function with `N` parameters and `K`
declared locals whose body is a sequence of call-free let/expression
statements ending in a call-free return statement, running the compiled
operation sequence from the state a `Call` produces — after `N` pushed
argument words, with at least one caller word beneath them — reaches
the function's final `Return`, whose execution restores the caller's
program counter and function identity bit-for-bit to their call-site
values `p` and `c`; the loop then resumes the caller one instruction
past the call.  The return value sits where the last argument was. -/
theorem callfree_function_roundtrip
    (N K c p : Nat) (fname : String) (params : List (String × Ty)) (rt : Ty)
    (fns : List String) (stmts : List Statement) (e : Expression)
    (ops : List Operation) (argWords below : List Nat)
    (hstmts : ∀ s ∈ stmts, callFreeS s = true ∧ isReturnS s = false)
    (he : callFreeE e = true)
    (hN : params.length = N)
    (hK : (stmts.filter isLetS).length = K)
    (hargs : argWords.length = N)
    (hbelow : 1 ≤ below.length)
    (hcomp : compileFunction fns
        { name := fname, arguments := params, return_type := rt,
          body := stmts ++ [Statement.Return e] } = some ops)
    (hword : ops.length < WORD) :
    stepOp (Operation.Call 0) ⟨c, p, argWords ++ below, []⟩
        = some ⟨0, 0, c :: p :: (argWords ++ below), []⟩
    ∧ ∃ n w,
        stepsN [ops] n ⟨0, 0, c :: p :: (argWords ++ below), []⟩
          = some ⟨0, n, c :: p :: (argWords ++ below).set 0 w, []⟩
        ∧ ops[n]? = some Operation.Return
        ∧ execOp Operation.Return ⟨0, n, c :: p :: (argWords ++ below).set 0 w, []⟩
            = some ⟨c, p, (argWords ++ below).set 0 w, []⟩
        ∧ stepsN [ops] (n + 1) ⟨0, 0, c :: p :: (argWords ++ below), []⟩
            = some ⟨c, wadd p 1, (argWords ++ below).set 0 w, []⟩ := by
  constructor
  · simp [stepOp, execOp, wadd, sentinel, WORD]
  simp only [compileFunction] at hcomp
  obtain ⟨rfin, hrfin, hops⟩ := Option.map_eq_some'.mp hcomp
  rw [compileStatements_append] at hrfin
  cases h1 : compileStatements params fns stmts [] [] with
  | none => rw [h1] at hrfin; simp at hrfin
  | some r1 =>
  rw [h1] at hrfin
  simp only [Option.bind_eq_bind, Option.some_bind] at hrfin
  have hsingle : compileStatements params fns [Statement.Return e] r1.1 r1.2
      = compileStatement params fns (Statement.Return e) r1.1 r1.2 := by
    cases h : compileStatement params fns (Statement.Return e) r1.1 r1.2 with
    | none => simp [compileStatements, h]
    | some rr => simp [compileStatements, h]
  rw [hsingle, compileStatement_Return_eq] at hrfin
  cases h2 : compileExpression params fns e r1.1 r1.2 with
  | none => rw [h2] at hrfin; simp at hrfin
  | some re =>
  rw [h2] at hrfin
  simp only [Option.some_bind, Option.some.injEq] at hrfin
  subst hrfin
  obtain ⟨Epre, hEpre, simpre⟩ :=
    compileStatements_callFree_sim params fns stmts hstmts [] [] r1 h1
  obtain ⟨Ee, hEe, hlve, sime⟩ :=
    compileExpression_callFree_sim params fns e he r1.1 r1.2 re h2
  have hre2 : re.2.dropLast = r1.2 := by
    rw [hlve]
    simp [List.dropLast_concat]
  have hshape : ops = Epre ++ (Ee ++ ([Operation.Put (r1.2.length + 2)]
      ++ (List.replicate r1.2.length Operation.Pop ++ [Operation.Return]))) := by
    rw [← hops, hre2, hEe, hEpre]
    simp [List.append_assoc]
  have hlenops : ops.length
      = Epre.length + Ee.length + 1 + r1.2.length + 1 := by
    rw [hshape]
    simp [List.length_append]
    omega
  have hD : params.length + 3 ≤ (c :: p :: (argWords ++ below)).length := by
    simp [List.length_append]
    omega
  -- Stage A: the call-free prefix statements.
  obtain ⟨W1, hW1len, hrunA⟩ := simpre ops []
    (Ee ++ ([Operation.Put (r1.2.length + 2)]
      ++ (List.replicate r1.2.length Operation.Pop ++ [Operation.Return])))
    [] (c :: p :: (argWords ++ below)) []
    (by simpa using hshape) rfl hD (by simp; omega)
  simp only [List.length_nil, List.nil_append, Nat.zero_add] at hrunA
  -- Stage B: the return statement's expression.
  obtain ⟨w, hrunB⟩ := sime ops Epre
    ([Operation.Put (r1.2.length + 2)]
      ++ (List.replicate r1.2.length Operation.Pop ++ [Operation.Return]))
    (W1 ++ (c :: p :: (argWords ++ below))) []
    (by rw [hshape]) 
    (by simp [List.length_append, hW1len]; omega)
    (by omega)
  -- Stage C: the relocation Put.
  have hfetchPut : ops[Epre.length + Ee.length]?
      = some (Operation.Put (r1.2.length + 2)) := by
    have := getElem?_append_middle ops (Epre ++ Ee)
      [Operation.Put (r1.2.length + 2)]
      (List.replicate r1.2.length Operation.Pop ++ [Operation.Return])
      (by rw [hshape]; simp [List.append_assoc]) 0 (by simp)
    simpa [List.length_append] using this
  have hexecPut : execOp (Operation.Put (r1.2.length + 2))
      ⟨0, Epre.length + Ee.length, w :: (W1 ++ (c :: p :: (argWords ++ below))), []⟩
      = some ⟨0, Epre.length + Ee.length,
          W1 ++ (c :: p :: (argWords ++ below).set 0 w), []⟩ := by
    simp only [execOp]
    rw [if_pos (by
      simp only [List.length_append, List.length_cons]
      omega)]
    rw [List.set_append_right _ _ (by omega)]
    rw [show r1.2.length + 2 - W1.length = 2 from by omega]
    rfl
  have hstepPut := stepM_straight ops (Epre.length + Ee.length)
    (Operation.Put (r1.2.length + 2))
    (w :: (W1 ++ (c :: p :: (argWords ++ below))))
    (W1 ++ (c :: p :: (argWords ++ below).set 0 w)) [] []
    hfetchPut hexecPut (by omega)
  -- Stage D: the local discards.
  have hrunD := run_pop_block ops r1.2.length (Epre.length + Ee.length + 1)
    W1 (c :: p :: (argWords ++ below).set 0 w) [] hW1len
    (fun k hk => by
      have hthis := getElem?_append_middle ops ((Epre ++ Ee)
          ++ [Operation.Put (r1.2.length + 2)])
        (List.replicate r1.2.length Operation.Pop) [Operation.Return]
        (by rw [hshape]; simp [List.append_assoc]) k (by simpa using hk)
      rw [List.getElem?_replicate_of_lt hk] at hthis
      have hPlen : ((Epre ++ Ee)
          ++ [Operation.Put (r1.2.length + 2)]).length
          = Epre.length + Ee.length + 1 := by
        simp [List.length_append]
        omega
      rw [hPlen] at hthis
      exact hthis)
    (by omega)
  -- Stage E: the final Return.
  have hfetchRet : ops[Epre.length + Ee.length + 1 + r1.2.length]?
      = some Operation.Return := by
    have hthis := getElem?_append_middle ops (((Epre ++ Ee)
        ++ [Operation.Put (r1.2.length + 2)])
        ++ List.replicate r1.2.length Operation.Pop)
      [Operation.Return] []
      (by rw [hshape]; simp [List.append_assoc]) 0 (by simp)
    have hPlen : ((((Epre ++ Ee) ++ [Operation.Put (r1.2.length + 2)])
        ++ List.replicate r1.2.length Operation.Pop)).length
        = Epre.length + Ee.length + 1 + r1.2.length := by
      simp [List.length_append]
      omega
    rw [hPlen] at hthis
    simpa using hthis
  have hmain : stepsN [ops] (Epre.length + (Ee.length + (1 + r1.2.length)))
      ⟨0, 0, c :: p :: (argWords ++ below), []⟩
      = some ⟨0, Epre.length + Ee.length + 1 + r1.2.length,
          c :: p :: (argWords ++ below).set 0 w, []⟩ := by
    rw [stepsN_add, hrunA, Option.some_bind]
    rw [stepsN_add, hrunB, Option.some_bind]
    rw [stepsN_add, stepsN_one, hstepPut, Option.some_bind]
    exact hrunD
  refine ⟨Epre.length + (Ee.length + (1 + r1.2.length)), w, ?_, ?_, rfl, ?_⟩
  · rw [hmain]
    rw [show Epre.length + (Ee.length + (1 + r1.2.length))
        = Epre.length + Ee.length + 1 + r1.2.length from by omega]
  · rw [show Epre.length + (Ee.length + (1 + r1.2.length))
        = Epre.length + Ee.length + 1 + r1.2.length from by omega]
    exact hfetchRet
  · rw [stepsN_add, hmain, Option.some_bind, stepsN_one]
    simp [stepM, (show (0 : Nat) ≠ sentinel from by decide), hfetchRet, stepOp,
      execOp]

/-- C2 counterexample: the claim quantifies over every function with `N`
parameters and `K` declared locals whose body ends in a return
statement.  `recDecl` (`fn f(): u32 { return f(); }`, `N = K = 0`) is
such a function, yet its compiled sequence re-executes `Call 0` forever:
after every `n` iterations the machine is again at instruction 0 of the
callee, the caller identity 9 is never restored, and the `Put`/`Return`
epilogue is unreachable.  The last two conjuncts show the other corner
the universal misses: for `fn g(): u32 { return 0; }` called with no
argument words and nothing beneath the two control words, the
relocation `Put 2` has no slot to write to and the machine faults
instead of resuming. -/
theorem recursive_return_never_resumes :
    compileFunction ["f"] recDecl
      = some [Operation.Call 0, Operation.Put 2, Operation.Return]
    ∧ (∀ n, stepsN [[Operation.Call 0, Operation.Put 2, Operation.Return]] n
          ⟨0, 0, [9, 4, 3], []⟩
        = some ⟨0, 0, List.replicate (2 * n) 0 ++ [9, 4, 3], []⟩)
    ∧ (∀ n vm, stepsN [[Operation.Call 0, Operation.Put 2, Operation.Return]] n
          ⟨0, 0, [9, 4, 3], []⟩ = some vm → vm.function_id ≠ 9)
    ∧ compileFunction ["g"]
        { name := "g", arguments := [], return_type := Ty.U32,
          body := [Statement.Return (Expression.NumLiteral 0)] }
        = some [Operation.Push 0, Operation.Put 2, Operation.Return]
    ∧ stepsN [[Operation.Push 0, Operation.Put 2, Operation.Return]] 2
        ⟨0, 0, [9, 4], []⟩ = none := by
  refine ⟨rfl, fun n => recursive_call_loop n [9, 4, 3] [], ?_, rfl, rfl⟩
  intro n vm h
  rw [recursive_call_loop n [9, 4, 3] []] at h
  have hvm := Option.some.inj h
  rw [← hvm]
  show (0 : Nat) ≠ 9
  decide

/-- C2 witness: `fn f(a: u32): u32 { let x: u32 = 0; return 0; }`
(`N = 1`, `K = 1`), called from caller identity 9 at program counter 4
with argument word 3 above a caller word 42. -/
theorem callfree_function_roundtrip_witness :
    (∀ s ∈ [Statement.Let "x" (some Ty.U32) (Expression.NumLiteral 0)],
        callFreeS s = true ∧ isReturnS s = false)
    ∧ callFreeE (Expression.NumLiteral 0) = true
    ∧ ([("a", Ty.U32)] : List (String × Ty)).length = 1
    ∧ (([Statement.Let "x" (some Ty.U32) (Expression.NumLiteral 0)]).filter
        isLetS).length = 1
    ∧ ([3] : List Nat).length = 1
    ∧ 1 ≤ ([42] : List Nat).length
    ∧ compileFunction ["f"]
        { name := "f", arguments := [("a", Ty.U32)], return_type := Ty.U32,
          body := [Statement.Let "x" (some Ty.U32) (Expression.NumLiteral 0)]
            ++ [Statement.Return (Expression.NumLiteral 0)] }
        = some [Operation.Push 0, Operation.Push 0, Operation.Put 3,
                Operation.Pop, Operation.Return]
    ∧ ([Operation.Push 0, Operation.Push 0, Operation.Put 3, Operation.Pop,
        Operation.Return] : List Operation).length < WORD
    ∧ (stepOp (Operation.Call 0) ⟨9, 4, [3] ++ [42], []⟩
          = some ⟨0, 0, 9 :: 4 :: ([3] ++ [42]), []⟩
       ∧ ∃ n w,
          stepsN [[Operation.Push 0, Operation.Push 0, Operation.Put 3,
              Operation.Pop, Operation.Return]] n ⟨0, 0, 9 :: 4 :: ([3] ++ [42]), []⟩
            = some ⟨0, n, 9 :: 4 :: (([3] ++ [42] : List Nat)).set 0 w, []⟩
          ∧ ([Operation.Push 0, Operation.Push 0, Operation.Put 3, Operation.Pop,
              Operation.Return] : List Operation)[n]? = some Operation.Return
          ∧ execOp Operation.Return
              ⟨0, n, 9 :: 4 :: (([3] ++ [42] : List Nat)).set 0 w, []⟩
              = some ⟨9, 4, (([3] ++ [42] : List Nat)).set 0 w, []⟩
          ∧ stepsN [[Operation.Push 0, Operation.Push 0, Operation.Put 3,
              Operation.Pop, Operation.Return]] (n + 1)
              ⟨0, 0, 9 :: 4 :: ([3] ++ [42]), []⟩
            = some ⟨9, wadd 4 1, (([3] ++ [42] : List Nat)).set 0 w, []⟩) :=
  ⟨by decide, by decide, by decide, by decide, by decide, by decide, by decide,
   by decide,
   callfree_function_roundtrip 1 1 9 4 "f" [("a", Ty.U32)] Ty.U32 ["f"]
     [Statement.Let "x" (some Ty.U32) (Expression.NumLiteral 0)]
     (Expression.NumLiteral 0)
     [Operation.Push 0, Operation.Push 0, Operation.Put 3, Operation.Pop,
      Operation.Return]
     [3] [42] (by decide) (by decide) (by decide) (by decide) (by decide)
     (by decide) (by decide) (by decide)⟩
end Comp
